import Mathlib

/-!
Verification of the SentenceMixingGenerator text-to-speech pipeline.

The development shallowly embeds the two Python sources of the repository:
`src/main.py` (plain concatenation renderer and live playback) and
`src/main_CrossFading.py` (the crossfading renderer).  PCM audio buffers are
modelled at byte granularity as `List Int` (each element one byte of the
Python `bytes` object), matching the byte-level slicing the sources perform.
File-system and device interaction is abstracted into an `Env` record which
answers the clip lookups (`_pick_random_variant`) with an already-read WAV
file: `none` means no candidate file, `some none` means a file was found but
its container fails to parse (in Python `wave.open` raises), and
`some (some w)` means the file parsed with header `w`.  Python exceptions are
modelled with `Except Unit`.  The unbounded recursion of `_get_phoneme_data`
is modelled with explicit fuel; the value `none` of the resolver means the
fuel was exhausted, i.e. the Python recursion does not terminate within that
depth.
-/

namespace SMG

set_option maxRecDepth 100000

/-- Truncation toward zero of a rational, the semantics of C's cast from
double to int used by the `audioop` C implementation. -/
def ratTruncate (q : ℚ) : Int :=
  Int.tdiv q.num (q.den : Int)

/-- Clamp a sample value to the signed range of a `w`-byte sample, the
saturation semantics of `audioop`. -/
def clampSample (w : Nat) (x : Int) : Int :=
  max (-(2 ^ (8 * w - 1))) (min x (2 ^ (8 * w - 1) - 1))

/-- Decode one little-endian signed sample from `w` bytes. -/
def decodeLE (c : List Int) : Int :=
  let u := c.foldr (fun b acc => b + 256 * acc) 0
  if 2 ^ (8 * c.length - 1) ≤ u then u - 2 ^ (8 * c.length) else u

/-- Encode a signed sample value into `w` little-endian bytes
(two's complement). -/
def encodeSample (w : Nat) (x : Int) : List Int :=
  (List.range w).map (fun i => (x % 2 ^ (8 * w)) / 2 ^ (8 * i) % 256)

/-- Split a byte string into its `w`-byte samples (fuel-driven so that the
definition is structural and evaluates in the kernel). -/
def decodeSamplesAux (w : Nat) : Nat → List Int → List Int
  | 0, _ => []
  | n + 1, l =>
    if 0 < w ∧ w ≤ l.length then
      decodeLE (l.take w) :: decodeSamplesAux w n (l.drop w)
    else []

/-- All complete `w`-byte samples of a byte string, decoded. -/
def decodeSamples (w : Nat) (l : List Int) : List Int :=
  decodeSamplesAux w l.length l

/-- Modelled from the spec: `audioop.mul(fragment, width, factor)` of the
external audioop collaborator — scale every sample by `factor` with
truncation and saturation.  The Python factor is a float; it is modelled as
an exact rational, which no claim's statement distinguishes. -/
def audioop_mul (frag : List Int) (w : Nat) (factor : ℚ) : List Int :=
  ((decodeSamples w frag).map
    (fun (s : Int) => encodeSample w (clampSample w (ratTruncate ((s : ℚ) * factor))))).flatten

/-- Modelled from the spec: `audioop.add(a, b, width)` — samplewise addition
with saturation. -/
def audioop_add (a b : List Int) (w : Nat) : List Int :=
  (((decodeSamples w a).zip (decodeSamples w b)).map
    (fun p => encodeSample w (clampSample w (p.1 + p.2)))).flatten

/-- Average consecutive sample pairs, truncating toward zero (the effect of
`audioop.tomono(data, w, 0.5, 0.5)` on each L/R frame). -/
def avgPairs (w : Nat) : List Int → List Int
  | l :: r :: rest => clampSample w (ratTruncate (((l + r : Int) : ℚ) * (1 / 2))) :: avgPairs w rest
  | _ => []

/-- Modelled from the spec: `audioop.tomono(data, width, 0.5, 0.5)` —
equal-weight downmix of interleaved stereo frames. -/
def tomono (w : Nat) (bytes : List Int) : List Int :=
  ((avgPairs w (decodeSamples w bytes)).map (encodeSample w)).flatten

/-- Modelled from the spec: `audioop.lin2lin` — linear sample-width
rescaling. -/
def lin2lin (bytes : List Int) (w tw : Nat) : List Int :=
  ((decodeSamples w bytes).map (fun s =>
    encodeSample tw (if w ≤ tw then s * 2 ^ (8 * (tw - w)) else Int.fdiv s (2 ^ (8 * (w - tw)))))).flatten

/-- Modelled from the spec: `audioop.ratecv` — linear-interpolation
resampling of a mono sample stream from `rate` to `trate`. -/
def ratecv (bytes : List Int) (w rate trate : Nat) : List Int :=
  let samples := decodeSamples w bytes
  let outN := samples.length * trate / rate
  ((List.range outN).map (fun k =>
    let pos : ℚ := (k : ℚ) * rate / trate
    let i : Nat := pos.floor.toNat
    let s0 : Int := samples.getD i 0
    let s1 : Int := samples.getD (i + 1) s0
    encodeSample w (clampSample w (ratTruncate ((s0 : ℚ) + (pos - (i : ℚ)) * ((s1 : ℚ) - (s0 : ℚ))))))).flatten

/-- A parsed WAV file: header fields and raw frame bytes, exactly what the
sources read via `wave.open` / `readframes`. -/
structure Wav where
  channels : Nat
  width : Nat
  rate : Nat
  data : List Int
deriving DecidableEq, Repr

/-- Embedding of `_normalize_wav` of `src/main.py` (lines 190-204): downmix
only when the source is multi-channel AND the target is mono, then width,
then rate conversion. -/
def normalizeMain (wav : Wav) (tch tw tr : Nat) : List Int :=
  let d1 := if wav.channels > 1 ∧ tch = 1 then tomono wav.width wav.data else wav.data
  let d2 := if wav.width ≠ tw then lin2lin d1 wav.width tw else d1
  if wav.rate ≠ tr then ratecv d2 tw wav.rate tr else d2

/-- Embedding of `_normalize_wav` of `src/main_CrossFading.py` (lines 71-79)
and of the inline normalization of `_play_sequence` in `src/main.py`
(lines 133-138): the downmix happens whenever the source is multi-channel,
without consulting the target channel count. -/
def normalizeCF (wav : Wav) (tch tw tr : Nat) : List Int :=
  let d1 := if wav.channels > 1 then tomono wav.width wav.data else wav.data
  let d2 := if wav.width ≠ tw then lin2lin d1 wav.width tw else d1
  if wav.rate ≠ tr then ratecv d2 tw wav.rate tr else d2

/-- Classification and provenance of a rendered segment.  In the Python
dictionaries, pause segments are the ones built from silence bytes, word
segments come from `words/<WORD>.wav`, and phoneme segments are the ones
carrying the extra `"phoneme"` key. -/
inductive Role where
  | word
  | phoneme
  | pause
deriving DecidableEq, Repr

/-- One entry of `raw_segments` in `render_to_file` of
`src/main_CrossFading.py`: raw PCM bytes plus the `is_vowel` / `is_pause`
flags, tagged with its provenance. -/
structure Seg where
  data : List Int
  isVowel : Bool
  isPause : Bool
  role : Role
deriving DecidableEq, Repr

/-- The file-system and G2P collaborators, abstracted per render call.
`word` answers the `words/<WORD>.wav` variant lookup for an upper-cased
word, `phon` the `<PHONEME>.wav` variant lookup; the outer `Option` is
"some candidate file exists", the inner `Option` is "its container
parses". -/
structure Env where
  word : String → Option (Option Wav)
  phon : String → Option (Option Wav)
  g2p : String → List String

/-- ASCII upper-casing of a whole string (Python `str.upper`), defined over
the character list so that it evaluates in the kernel. -/
def strUpper (s : String) : String :=
  String.mk (s.data.map Char.toUpper)

/-- Strip leading and trailing whitespace (Python `str.strip`). -/
def strStrip (s : String) : String :=
  String.mk (((s.data.dropWhile Char.isWhitespace).reverse.dropWhile Char.isWhitespace).reverse)

/-- Embedding of `_is_vowel` (src/main_CrossFading.py lines 37-39). -/
def isVowelStr (p : String) : Bool :=
  strUpper (strStrip p) ∈
    (["AA", "AE", "AH", "AO", "AW", "AY", "EH", "ER", "EY", "IH", "IY",
      "OW", "OY", "UH", "UW"] : List String)

/-- Embedding of `PHONEME_MAPPING` (src/main_CrossFading.py lines 15-29). -/
def defaultTable (l : String) : Option (List String) :=
  if l = "AW" then some ["AE", "OW"]
  else if l = "DH" then some ["D"]
  else if l = "EY" then some ["EH", "IY"]
  else if l = "JH" then some ["CH"]
  else if l = "SH" then some ["CH"]
  else if l = "TH" then some ["D"]
  else if l = "ZH" then some ["CH"]
  else if l = "AE" then some ["AA"]
  else if l = "AO" then some ["AA", "OW"]
  else if l = "ER" then some ["AA"]
  else if l = "IH" then some ["IY"]
  else if l = "OY" then some ["OW", "Y", "IY"]
  else if l = "UH" then some ["UW"]
  else none

/-- A fallback table in general (the Python class attribute, which a
voice-bank author may edit). -/
def PhTable : Type := String → Option (List String)

/-- Embedding of `re.sub(r'\d+', '', p)`: remove every digit character. -/
def stripDigits (s : String) : String :=
  String.mk (s.data.filter (fun c => !c.isDigit))

/-- Embedding of the test `re.match(r'[A-Z]+[0-9]*', p)`: the regex matches
a prefix of `p` exactly when `p` starts with an ASCII uppercase letter. -/
def startsUpper (s : String) : Bool :=
  match s.data with
  | [] => false
  | c :: _ => decide ('A' ≤ c ∧ c ≤ 'Z')

/-- Embedding of the label cleaning of `render_to_file` in
`src/main_CrossFading.py` (lines 113-114): strip digits from every label
except a literal `AH0`, then keep the labels that match the regex. -/
def cleanCF (raw : List String) : List String :=
  (raw.map (fun p => if p = "AH0" then p else stripDigits p)).filter startsUpper

/-- Embedding of `_get_phonemes` in `src/main.py` (lines 61-72): filter on
the raw label first, then strip all digits (no `AH0` exception). -/
def cleanMain (raw : List String) : List String :=
  (raw.filter startsUpper).map stripDigits

/-- Embedding of the last-phoneme substitution of `render_to_file` in
`src/main_CrossFading.py` (lines 116-119): if the final cleaned label is
`AH`, `AE` or `AH0`, it becomes `AA`. -/
def applyLastSub (ps : List String) : List String :=
  match ps.getLast? with
  | some l => if l ∈ (["AH", "AE", "AH0"] : List String) then ps.dropLast ++ ["AA"] else ps
  | none => ps

/-- One step of the fallback accumulation loop of `_get_phoneme_data`
(src/main_CrossFading.py lines 63-68): `sub_data = resolve(sub)`, then
`if sub_data: combined += sub_data`.  The first diverging recursion
(`none`) or raised exception (`Except.error`) aborts the whole loop, as in
Python. -/
def combineStep (r : Option (Except Unit (Option (List Int))))
    (acc : Option (Except Unit (List Int))) : Option (Except Unit (List Int)) :=
  match r, acc with
  | none, _ => none
  | some (Except.error e), _ => some (Except.error e)
  | some (Except.ok _), none => none
  | some (Except.ok _), some (Except.error e) => some (Except.error e)
  | some (Except.ok o), some (Except.ok tail) => some (Except.ok (o.getD [] ++ tail))

/-- The audio a substitute contributes to the concatenation: its resolved
data if resolution succeeded, nothing otherwise. -/
def subAudio (r : Option (Except Unit (Option (List Int)))) : List Int :=
  match r with
  | some (Except.ok (some d)) => d
  | _ => []

/-- Embedding of `_get_phoneme_data` (src/main_CrossFading.py lines 49-69),
parameterized by the fallback table and with explicit recursion fuel.
Result `none` means the fuel is exhausted, i.e. the Python recursion has not
returned within that depth; `some (Except.error ())` models an exception
escaping from `wave.open` on a corrupt resolved file; `some (Except.ok o)`
is the Python return value (`None` or the normalized bytes). -/
def getPhonemeData (table : PhTable) (env : Env) (tch tw tr : Nat) :
    Nat → String → Option (Except Unit (Option (List Int)))
  | 0, _ => none
  | f + 1, ph =>
    if ph = "AH0" then
      match getPhonemeData table env tch tw tr f "EH" with
      | some (Except.ok (some d)) =>
        some (Except.ok (some
          (if 2 * (tw * tch) < d.length then
            (d.drop (tw * tch)).take (d.length - 2 * (tw * tch))
          else d)))
      | r => r
    else
      match env.phon ph with
      | some (some w) => some (Except.ok (some (normalizeCF w tch tw tr)))
      | some none => some (Except.error ())
      | none =>
        match table ph with
        | some subs =>
          match subs.foldr
              (fun s acc => combineStep (getPhonemeData table env tch tw tr f s) acc)
              (some (Except.ok [])) with
          | none => none
          | some (Except.error e) => some (Except.error e)
          | some (Except.ok comb) =>
            some (Except.ok (if comb = [] then none else some comb))
        | none => some (Except.ok none)

/-- Recursion depth used when the renderer resolves phonemes.  The longest
chain the default table can produce is `AW → AE → AA` (depth 3) or
`AH0 → EH` (depth 2), so depth 10 is never exhausted in the renderer. -/
def renderFuel : Nat := 10

/-- Embedding of the crossfade eligibility test of the render loop
(src/main_CrossFading.py lines 139-149): the current segment is neither a
vowel nor a pause, and the next one is a vowel and not a pause. -/
def canFade (s t : Seg) : Bool :=
  (!s.isVowel && !s.isPause) && (t.isVowel && !t.isPause)

/-- Embedding of `_apply_crossfade` (src/main_CrossFading.py lines 81-95).
`fade_size = int(rate * 0.05) * width`; at the rates the program uses,
`int(rate * 0.05)` equals `rate / 20` exactly (for 44100 the float product
44100 * 0.05 rounds to 2205.0).  Returns the faded current segment and the
truncated next segment. -/
def applyCrossfade (rate w : Nat) (cur next : List Int) : List Int × List Int :=
  let fadeSize := rate / 20 * w
  let actualFade := min fadeSize (min cur.length next.length)
  if actualFade = 0 then (cur, next)
  else
    let currMain := cur.take (cur.length - actualFade)
    let tail := cur.drop (cur.length - actualFade)
    let numFrames := actualFade / w
    let rampOut := ((List.range numFrames).map (fun i =>
      audioop_mul ((tail.drop (i * w)).take w) w (1 - (i : ℚ) / (numFrames : ℚ)))).flatten
    let rampIn := ((List.range numFrames).map (fun i =>
      audioop_mul ((next.drop (i * w)).take w) w ((i : ℚ) / (numFrames : ℚ)))).flatten
    (currMain ++ audioop_add rampOut rampIn w, next.drop actualFade)

/-- The single left-to-right pass of `render_to_file` in
`src/main_CrossFading.py` (lines 133-156), fuel-driven (fuel at least the
list length reproduces the loop; each iteration emits the current segment's
audio and truncates the next segment's buffer in place). -/
def crossfadePassAux (rate w : Nat) : Nat → List Seg → List Int
  | 0, _ => []
  | _ + 1, [] => []
  | _ + 1, [s] => s.data
  | n + 1, s :: t :: rest =>
    if canFade s t then
      let p := applyCrossfade rate w s.data t.data
      p.1 ++ crossfadePassAux rate w n (⟨p.2, t.isVowel, t.isPause, t.role⟩ :: rest)
    else
      s.data ++ crossfadePassAux rate w n (t :: rest)

/-- The complete crossfade pass over a segment list. -/
def crossfadePass (rate w : Nat) (segs : List Seg) : List Int :=
  crossfadePassAux rate w segs.length segs

/-- Total byte length of a segment list before crossfading. -/
def totalLen (segs : List Seg) : Nat :=
  (segs.map (fun s => s.data.length)).sum

/-- The claimed per-boundary budget: the sum over eligible boundaries of
`min(fade window, len(segment i), len(segment i+1))`, taken on the original
segment list. -/
def fadeBound (rate w : Nat) : List Seg → Nat
  | [] => 0
  | [_] => 0
  | s :: t :: rest =>
    (if canFade s t then min (rate / 20 * w) (min s.data.length t.data.length) else 0)
      + fadeBound rate w (t :: rest)

/-- The inter-word pause segment of the crossfading renderer:
`int(44100 * 0.01 * 2 * 1)` zero bytes (the float product is exactly 441.0,
so 882 bytes). -/
def wordPauseSeg : Seg :=
  ⟨List.replicate 882 0, false, true, Role.pause⟩

/-- Resolve one cleaned label list to phoneme segments, the inner loop of
`render_to_file` in `src/main_CrossFading.py` (lines 121-129): a segment is
appended only when the resolved data is truthy (non-`None` and non-empty).
Exhausted fuel — impossible with the default table at `renderFuel` — and
parse exceptions both abort the render. -/
def phonSegsCF (env : Env) : List String → Except Unit (List Seg)
  | [] => Except.ok []
  | p :: rest =>
    match getPhonemeData defaultTable env 1 2 44100 renderFuel p with
    | none => Except.error ()
    | some (Except.error e) => Except.error e
    | some (Except.ok o) =>
      match phonSegsCF env rest with
      | Except.error e => Except.error e
      | Except.ok segs =>
        match o with
        | some d =>
          Except.ok (if d = [] then segs else ⟨d, isVowelStr p, false, Role.phoneme⟩ :: segs)
        | none => Except.ok segs

/-- The segments one token contributes in `render_to_file` of
`src/main_CrossFading.py` (lines 102-131): punctuation becomes a pause of
`int(44100 * dur * 2)` zero bytes (`dur` 0.5 terminal / 0.25 comma), a word
with a whole-word recording becomes that single normalized segment, and
otherwise the cleaned, last-substituted G2P labels are resolved one by one;
every non-punctuation token is followed by the inter-word pause. -/
def blockCF (env : Env) (tok : String) : Except Unit (List Seg) :=
  if tok ∈ ([".", "!", "?", ",", ";"] : List String) then
    Except.ok [⟨List.replicate (if tok ∈ ([".", "!", "?"] : List String) then 44100 else 22050) 0,
      false, true, Role.pause⟩]
  else
    match env.word (strUpper tok) with
    | some (some w) =>
      Except.ok [⟨normalizeCF w 1 2 44100, false, false, Role.word⟩, wordPauseSeg]
    | some none => Except.error ()
    | none =>
      match phonSegsCF env (applyLastSub (cleanCF (env.g2p tok))) with
      | Except.error e => Except.error e
      | Except.ok segs => Except.ok (segs ++ [wordPauseSeg])

/-- The full segment list `raw_segments` the crossfading renderer builds for
a token sequence. -/
def buildSegmentsCF (env : Env) : List String → Except Unit (List Seg)
  | [] => Except.ok []
  | t :: ts =>
    match blockCF env t, buildSegmentsCF env ts with
    | Except.error e, _ => Except.error e
    | Except.ok _, Except.error e => Except.error e
    | Except.ok b, Except.ok rest => Except.ok (b ++ rest)

/-- Embedding of `render_to_file` of `src/main_CrossFading.py`: build the
segments, run the crossfade pass, and write the resulting buffer.  There is
no emptiness check: the file is written unconditionally (a zero-length WAV
for an empty token list). -/
def renderCF (env : Env) (toks : List String) : Except Unit (List Int) :=
  (buildSegmentsCF env toks).map (crossfadePass 44100 2)

/-- The bytes one token contributes in `render_to_file` of `src/main.py`
(lines 158-178): terminal punctuation a 0.5 s silence
(`int(44100*0.5) = 22050` samples of 2 zero bytes), comma/semicolon a
0.25 s silence, a found whole-word recording its normalized bytes, and
otherwise each cleaned phoneme's recording (appended unconditionally when
found, skipped with a printed diagnostic when missing — `main.py` has no
fallback table); every non-punctuation token is followed by the
`int(44100*0.01) = 441`-sample inter-word silence. -/
def blockMain (env : Env) (tok : String) : Except Unit (List (List Int)) :=
  if tok ∈ ([".", "!", "?"] : List String) then
    Except.ok [List.replicate 44100 0]
  else if tok ∈ ([",", ";"] : List String) then
    Except.ok [List.replicate 22050 0]
  else
    match env.word (strUpper tok) with
    | some (some w) => Except.ok [normalizeMain w 1 2 44100, List.replicate 882 0]
    | some none => Except.error ()
    | none =>
      match phonChunksMain env (cleanMain (env.g2p tok)) with
      | Except.error e => Except.error e
      | Except.ok cs => Except.ok (cs ++ [List.replicate 882 0])
where
  /-- The phoneme loop of `render_to_file` in `src/main.py`
  (lines 170-176). -/
  phonChunksMain (env : Env) : List String → Except Unit (List (List Int))
    | [] => Except.ok []
    | p :: rest =>
      match env.phon p with
      | some (some w) =>
        match phonChunksMain env rest with
        | Except.error e => Except.error e
        | Except.ok cs => Except.ok (normalizeMain w 1 2 44100 :: cs)
      | some none => Except.error ()
      | none => phonChunksMain env rest

/-- The `audio_segments` list `render_to_file` of `src/main.py`
accumulates. -/
def segsMain (env : Env) : List String → Except Unit (List (List Int))
  | [] => Except.ok []
  | t :: ts =>
    match blockMain env t, segsMain env ts with
    | Except.error e, _ => Except.error e
    | Except.ok _, Except.error e => Except.error e
    | Except.ok b, Except.ok rest => Except.ok (b ++ rest)

/-- Embedding of `render_to_file` of `src/main.py` (lines 150-188):
`Except.ok none` is the distinguished `"Nothing to render."` early return
(no file written), `Except.ok (some buf)` is a write of `buf`, and
`Except.error` a propagated exception.  The emptiness test is on the
segment LIST (`if not audio_segments`), not on the joined bytes. -/
def renderMain (env : Env) (toks : List String) : Except Unit (Option (List Int)) :=
  match segsMain env toks with
  | Except.error e => Except.error e
  | Except.ok segs => Except.ok (if segs.isEmpty then none else some segs.flatten)

/-- One entry of the playback list of `get_pronunciation` in
`src/main.py`: a timed silence (`time.sleep`, nothing written to the
stream) or a clip file (possibly unparseable). -/
inductive PlayItem where
  | silence
  | file (w : Option Wav)
deriving DecidableEq

/-- Embedding of `_play_sequence` of `src/main.py` (lines 111-147): the
chunks written to the output stream in order, paired with the number of
`"Error playing ..."` diagnostics.  The per-file `try/except` turns a parse
failure into a skipped item, never a raised exception. -/
def playSequence : List PlayItem → List (List Int) × Nat
  | [] => ([], 0)
  | PlayItem.silence :: rest => playSequence rest
  | PlayItem.file none :: rest =>
    let p := playSequence rest
    (p.1, p.2 + 1)
  | PlayItem.file (some w) :: rest =>
    let p := playSequence rest
    (normalizeCF w 1 2 44100 :: p.1, p.2)

/-- The character class of `[\w']` in the tokenizing regex (ASCII model of
Python's `\w` plus the apostrophe). -/
def isWordChar (c : Char) : Bool :=
  c.isAlphanum || c = '_' || c = '\''

/-- The isolated punctuation class `[.,!?;]` of the tokenizing regex. -/
def isPunctChar (c : Char) : Bool :=
  c ∈ (['.', ',', '!', '?', ';'] : List Char)

/-- Fuel-driven scanner for `re.findall(r"[\w']+|[.,!?;]", s)`: maximal
word-character runs become one token, the five punctuation marks become
single-character tokens, anything else separates. -/
def tokenizeAux : Nat → List Char → List String
  | 0, _ => []
  | n + 1, [] => []
  | n + 1, c :: cs =>
    if isWordChar c then
      String.mk (c :: cs.takeWhile isWordChar) :: tokenizeAux n (cs.dropWhile isWordChar)
    else if isPunctChar c then
      String.mk [c] :: tokenizeAux n cs
    else
      tokenizeAux n cs

/-- Embedding of the tokenization `re.findall(r"[\w']+|[.,!?;]", str_input)`
shared by both sources. -/
def tokenize (s : String) : List String :=
  tokenizeAux s.data.length s.data

/-- Decidable equality for `Except`, so that concrete render outcomes can be
compared by `decide`. -/
instance {ε α : Type} [DecidableEq ε] [DecidableEq α] : DecidableEq (Except ε α) :=
  fun x y =>
    match x, y with
    | Except.ok a, Except.ok b =>
      if h : a = b then isTrue (by rw [h]) else isFalse (fun hh => h (Except.ok.inj hh))
    | Except.error e, Except.error f =>
      if h : e = f then isTrue (by rw [h]) else isFalse (fun hh => h (Except.error.inj hh))
    | Except.ok _, Except.error _ => isFalse (fun hh => Except.noConfusion hh)
    | Except.error _, Except.ok _ => isFalse (fun hh => Except.noConfusion hh)

/-- An empty voice bank: no word recordings, no phoneme recordings, a G2P
that returns nothing. -/
def envEmpty : Env :=
  ⟨fun _ => none, fun _ => none, fun _ => []⟩

/-- A tiny already-target-format clip (mono, 16-bit, 44100 Hz, one frame). -/
def wav0 : Wav :=
  ⟨1, 2, 44100, [0, 0]⟩

/-- A voice bank holding recordings for `HH` and `IY` only, whose G2P
pronounces every word as `HH IY1`. -/
def envHi : Env :=
  ⟨fun _ => none,
   fun l => if l = "HH" ∨ l = "IY" then some (some wav0) else none,
   fun _ => ["HH", "IY1"]⟩

/-- The segment list the crossfading renderer builds for the word `hi`
against `envHi`: an `HH` consonant segment, an `IY` vowel segment, and the
inter-word pause. -/
def segsHi : List Seg :=
  [⟨[0, 0], false, false, Role.phoneme⟩,
   ⟨[0, 0], true, false, Role.phoneme⟩,
   wordPauseSeg]

/-- A voice bank whose only word recording, `words/HI.wav`, fails to
parse. -/
def envCorrupt : Env :=
  ⟨fun s => if s = "HI" then some none else none, fun _ => none, fun _ => []⟩

/-- A voice bank with no word recordings whose only phoneme file, `HH.wav`,
fails to parse; its G2P pronounces every word as `HH IY1`. -/
def envPhonCorrupt : Env :=
  ⟨fun _ => none,
   fun l => if l = "HH" then some none else none,
   fun _ => ["HH", "IY1"]⟩

/-- An author-edited fallback table containing the cycle `X → [Y]`,
`Y → [X]`. -/
def cycTable : PhTable :=
  fun l => if l = "X" then some ["Y"] else if l = "Y" then some ["X"] else none

/-- A voice bank whose only phoneme recording, `D.wav`, parses to a
zero-frame (empty) clip. -/
def envEmptyD : Env :=
  ⟨fun _ => none,
   fun l => if l = "D" then some (some ⟨1, 2, 44100, []⟩) else none,
   fun _ => []⟩

/-- A voice bank whose only phoneme recording is a one-frame `D.wav`. -/
def envD : Env :=
  ⟨fun _ => none,
   fun l => if l = "D" then some (some wav0) else none,
   fun _ => []⟩

/-- A voice bank holding only a three-frame `EH.wav`. -/
def envEH : Env :=
  ⟨fun _ => none,
   fun l => if l = "EH" then some (some ⟨1, 2, 44100, [1, 2, 3, 4, 5, 6]⟩) else none,
   fun _ => []⟩

/-- Like `envEH` but with an additional (never consulted) `AH0.wav`. -/
def envEHandAH0 : Env :=
  ⟨fun _ => none,
   fun l => if l = "EH" then some (some ⟨1, 2, 44100, [1, 2, 3, 4, 5, 6]⟩)
            else if l = "AH0" then some (some wav0) else none,
   fun _ => []⟩

/-- Two frame-unaligned segments (three bytes each, not a whole number of
16-bit frames) forming one eligible consonant-to-vowel boundary. -/
def segsOdd : List Seg :=
  [⟨[0, 0, 0], false, false, Role.phoneme⟩,
   ⟨[0, 0, 0], true, false, Role.phoneme⟩]

/-- A stereo 8-bit clip holding one frame (two channel bytes). -/
def wavStereo : Wav :=
  ⟨2, 1, 8000, [0, 0]⟩

/-- Structural invariant of renderer-built segment lists: a whole-word
segment is always immediately followed by a segment, and that segment is a
pause (the inter-word pause appended after every non-punctuation token). -/
def NoMidWord (segs : List Seg) : Prop :=
  List.Chain' (fun a b => a.role = Role.word → b.isPause = true) segs ∧
    ∀ x, segs.getLast? = some x → x.role ≠ Role.word

/-- Structural invariant of renderer-built segment lists: every
pause-tagged segment carries the `is_pause` flag. -/
def PauseFlag (segs : List Seg) : Prop :=
  ∀ s ∈ segs, s.role = Role.pause → s.isPause = true

lemma encodeSample_length (w : Nat) (x : Int) : (encodeSample w x).length = w := by
  simp [encodeSample]

lemma sum_map_const_on {α : Type} (L : List α) (h : α → Nat) (w : Nat)
    (hh : ∀ x ∈ L, h x = w) : (L.map h).sum = L.length * w := by
  induction L with
  | nil => simp
  | cons a L ih =>
    simp only [List.map_cons, List.sum_cons, List.length_cons]
    rw [hh a (by simp), ih (fun x hx => hh x (by simp [hx]))]
    ring

lemma decodeSamplesAux_length (w : Nat) :
    ∀ n l, l.length ≤ n → (decodeSamplesAux w n l).length = l.length / w := by
  intro n
  induction n with
  | zero =>
    intro l hl
    have h0 : l.length = 0 := Nat.le_zero.mp hl
    simp [decodeSamplesAux, h0]
  | succ n ih =>
    intro l hl
    by_cases h : 0 < w ∧ w ≤ l.length
    · have hdrop : (l.drop w).length = l.length - w := by simp
      have hle : (l.drop w).length ≤ n := by omega
      simp only [decodeSamplesAux, if_pos h, List.length_cons, ih _ hle, hdrop]
      rw [Nat.div_eq l.length w, if_pos h]
    · simp only [decodeSamplesAux, if_neg h, List.length_nil]
      rcases Nat.eq_zero_or_pos w with hw | hw
      · simp [hw]
      · have : l.length < w := by omega
        exact (Nat.div_eq_of_lt this).symm

lemma decodeSamples_length (w : Nat) (l : List Int) :
    (decodeSamples w l).length = l.length / w :=
  decodeSamplesAux_length w l.length l le_rfl

lemma audioop_mul_length (frag : List Int) (w : Nat) (f : ℚ) :
    (audioop_mul frag w f).length = w * (frag.length / w) := by
  unfold audioop_mul
  rw [List.length_flatten, List.map_map]
  simp only [Function.comp_def]
  rw [sum_map_const_on (decodeSamples w frag) _ w (fun x _ => encodeSample_length w _)]
  rw [decodeSamples_length, Nat.mul_comm]

lemma audioop_add_length (a b : List Int) (w : Nat) :
    (audioop_add a b w).length = w * min (a.length / w) (b.length / w) := by
  unfold audioop_add
  rw [List.length_flatten, List.map_map]
  simp only [Function.comp_def]
  rw [sum_map_const_on ((decodeSamples w a).zip (decodeSamples w b)) _ w
    (fun x _ => encodeSample_length w _)]
  rw [List.length_zip, decodeSamples_length, decodeSamples_length, Nat.mul_comm]

lemma ramp_length (w : Nat) (hw : 0 < w) (buf : List Int) (nf : Nat) (g : Nat → ℚ)
    (hbuf : nf * w ≤ buf.length) :
    (((List.range nf).map (fun i =>
      audioop_mul ((buf.drop (i * w)).take w) w (g i))).flatten).length = nf * w := by
  rw [List.length_flatten, List.map_map]
  rw [sum_map_const_on (List.range nf) _ w ?_, List.length_range]
  intro i hi
  rw [List.mem_range] at hi
  have hslice : ((buf.drop (i * w)).take w).length = w := by
    have h1 : (i + 1) * w ≤ nf * w := Nat.mul_le_mul_right w hi
    have h2 : (i + 1) * w = i * w + w := by ring
    simp only [List.length_take, List.length_drop]
    omega
  rw [Function.comp_apply, audioop_mul_length, hslice, Nat.div_self hw, Nat.mul_one]

lemma dvd_min_of_dvd {w x y : Nat} (hx : w ∣ x) (hy : w ∣ y) : w ∣ min x y := by
  rcases le_total x y with h | h
  · rwa [min_eq_left h]
  · rwa [min_eq_right h]

lemma applyCrossfade_snd (rate w : Nat) (cur next : List Int) :
    (applyCrossfade rate w cur next).2 =
      next.drop (min (rate / 20 * w) (min cur.length next.length)) := by
  unfold applyCrossfade
  by_cases h : min (rate / 20 * w) (min cur.length next.length) = 0
  · simp [h]
  · simp [h]

lemma applyCrossfade_fst_length (rate w : Nat) (cur next : List Int)
    (h1 : w ∣ cur.length) (h2 : w ∣ next.length) :
    (applyCrossfade rate w cur next).1.length = cur.length := by
  have hwf : w ∣ rate / 20 * w := dvd_mul_left w (rate / 20)
  have hwa : w ∣ min (rate / 20 * w) (min cur.length next.length) :=
    dvd_min_of_dvd hwf (dvd_min_of_dvd h1 h2)
  simp only [applyCrossfade]
  set a := min (rate / 20 * w) (min cur.length next.length) with ha
  by_cases h0 : a = 0
  · simp [h0]
  · have hw : 0 < w := by
      rcases Nat.eq_zero_or_pos w with hw0 | hw0
      · exfalso; apply h0; rw [hw0] at hwa; simpa using hwa
      · exact hw0
    have hnf : a / w * w = a := Nat.div_mul_cancel hwa
    have hacur : a ≤ cur.length := le_trans (min_le_right _ _) (min_le_left _ _)
    have hanext : a ≤ next.length := le_trans (min_le_right _ _) (min_le_right _ _)
    simp only [if_neg h0, List.length_append]
    have htail : (cur.drop (cur.length - a)).length = a := by
      simp only [List.length_drop]; omega
    have hout := ramp_length w hw (cur.drop (cur.length - a)) (a / w)
      (fun i => 1 - (i : ℚ) / ((a / w : Nat) : ℚ)) (by rw [hnf, htail])
    have hin := ramp_length w hw next (a / w)
      (fun i => (i : ℚ) / ((a / w : Nat) : ℚ)) (by rw [hnf]; exact hanext)
    rw [audioop_add_length, hout, hin]
    have hdd : a / w * w / w = a / w := Nat.mul_div_cancel _ hw
    rw [List.length_take, hdd, min_self]
    have hwa2 : w * (a / w) = a := by rw [Nat.mul_comm]; exact hnf
    rw [hwa2]
    omega

lemma fadeBound_cons_mono (rate w : Nat) (t t' : Seg) (rest : List Seg)
    (hlen : t'.data.length ≤ t.data.length) (hv : t'.isVowel = t.isVowel)
    (hp : t'.isPause = t.isPause) :
    fadeBound rate w (t' :: rest) ≤ fadeBound rate w (t :: rest) := by
  cases rest with
  | nil => simp [fadeBound]
  | cons r rs =>
    have hcf : canFade t' r = canFade t r := by simp [canFade, hv, hp]
    simp only [fadeBound, hcf]
    by_cases h : canFade t r = true
    · simp only [h, if_true]
      exact Nat.add_le_add_right
        (min_le_min le_rfl (min_le_min hlen le_rfl)) _
    · simp [h]

lemma crossfadePassAux_bound (rate w : Nat) :
    ∀ n segs, segs.length ≤ n → (∀ s ∈ segs, w ∣ s.data.length) →
      totalLen segs ≤ (crossfadePassAux rate w n segs).length + fadeBound rate w segs := by
  intro n
  induction n with
  | zero =>
    intro segs hlen _
    have : segs = [] := List.eq_nil_of_length_eq_zero (Nat.le_zero.mp hlen)
    simp [this, totalLen, fadeBound, crossfadePassAux]
  | succ n ih =>
    intro segs hlen hdvd
    match segs with
    | [] => simp [totalLen, fadeBound, crossfadePassAux]
    | [s] => simp [totalLen, fadeBound, crossfadePassAux]
    | s :: t :: rest =>
      have hds : w ∣ s.data.length := hdvd s (by simp)
      have hdt : w ∣ t.data.length := hdvd t (by simp)
      have hwf : w ∣ rate / 20 * w := dvd_mul_left w (rate / 20)
      have hwa : w ∣ min (rate / 20 * w) (min s.data.length t.data.length) :=
        dvd_min_of_dvd hwf (dvd_min_of_dvd hds hdt)
      set a := min (rate / 20 * w) (min s.data.length t.data.length) with ha
      by_cases hf : canFade s t = true
      · have hfst := applyCrossfade_fst_length rate w s.data t.data hds hdt
        have hsnd := applyCrossfade_snd rate w s.data t.data
        set t' : Seg := ⟨(applyCrossfade rate w s.data t.data).2, t.isVowel, t.isPause, t.role⟩
          with ht'
        have ht'len : t'.data.length = t.data.length - a := by
          rw [ht', hsnd, ← ha]; simp
        have hih := ih (t' :: rest) (by simp at hlen ⊢; omega) ?hd
        case hd =>
          intro x hx
          rcases List.mem_cons.mp hx with hx | hx
          · rw [hx, ht'len]; exact Nat.dvd_sub' hdt hwa
          · exact hdvd x (by simp [hx])
        have hmono : fadeBound rate w (t' :: rest) ≤ fadeBound rate w (t :: rest) :=
          fadeBound_cons_mono rate w t t' rest (by rw [ht'len]; omega) rfl rfl
        have hat : a ≤ t.data.length := le_trans (min_le_right _ _) (min_le_right _ _)
        have htot : totalLen (s :: t :: rest) = s.data.length + (t.data.length + totalLen rest) := by
          simp [totalLen]
        have htot' : totalLen (t' :: rest) = (t.data.length - a) + totalLen rest := by
          simp [totalLen, ht'len]
        have hfb : fadeBound rate w (s :: t :: rest) = a + fadeBound rate w (t :: rest) := by
          simp [fadeBound, hf, ← ha]
        have hpass : (crossfadePassAux rate w (n + 1) (s :: t :: rest)).length =
            s.data.length + (crossfadePassAux rate w n (t' :: rest)).length := by
          simp only [crossfadePassAux, hf, if_true, List.length_append, hfst]
        rw [htot, hfb, hpass]
        rw [htot'] at hih
        omega
      · have hih := ih (t :: rest) (by simp at hlen ⊢; omega)
          (fun x hx => hdvd x (by simp [List.mem_cons.mp hx]))
        have htot : totalLen (s :: t :: rest) = s.data.length + totalLen (t :: rest) := by
          simp [totalLen]
        have hfb : fadeBound rate w (s :: t :: rest) = fadeBound rate w (t :: rest) := by
          simp [fadeBound, hf]
        have hpass : (crossfadePassAux rate w (n + 1) (s :: t :: rest)).length =
            s.data.length + (crossfadePassAux rate w n (t :: rest)).length := by
          simp only [crossfadePassAux, hf, List.length_append]
          simp
        rw [htot, hfb, hpass]
        omega

/-- C5 (amended): over segment lists whose PCM byte lengths are whole
multiples of the sample width — true of every renderer-produced segment —
the crossfade pass shortens the total output by at most
`min(fade window, len(segment i), len(segment i+1))` summed over the
eligible boundaries; when that window is 0 the two segments pass through
`_apply_crossfade` untouched; and a pause segment is never a fade-out or
fade-in side.  (On frame-unaligned data the reduction can exceed the
window, see the counterexample.) -/
theorem crossfade_length_budget :
    (∀ (rate w : Nat) (segs : List Seg), (∀ s ∈ segs, w ∣ s.data.length) →
      totalLen segs ≤ (crossfadePass rate w segs).length + fadeBound rate w segs) ∧
    (∀ (rate w : Nat) (cur next : List Int),
      min (rate / 20 * w) (min cur.length next.length) = 0 →
      applyCrossfade rate w cur next = (cur, next)) ∧
    (∀ s t : Seg, s.isPause = true ∨ t.isPause = true → canFade s t = false) := by
  refine ⟨?_, ?_, ?_⟩
  · intro rate w segs hdvd
    exact crossfadePassAux_bound rate w segs.length segs le_rfl hdvd
  · intro rate w cur next h0
    simp only [applyCrossfade]
    rw [if_pos h0]
  · intro s t h
    rcases h with h | h <;> simp [canFade, h]

/-- C5 witness: the budget inequality evaluated on the concrete segment
list the renderer builds for `hi` (all byte lengths even). -/
theorem crossfade_length_budget_witness :
    totalLen segsHi ≤ (crossfadePass 44100 2 segsHi).length + fadeBound 44100 2 segsHi :=
  crossfade_length_budget.1 44100 2 segsHi (by decide)

/-- C5 counterexample: on two frame-unaligned (3-byte) segments forming one
eligible boundary, the pass drops 4 bytes while the claimed per-boundary
budget `min(4410, 3, 3)` is 3 — the claim as stated fails on
frame-unaligned segment lists. -/
theorem crossfade_length_budget_counterexample :
    fadeBound 44100 2 segsOdd = 3 ∧ totalLen segsOdd = 6 ∧
      (crossfadePass 44100 2 segsOdd).length = 2 ∧
      ¬ totalLen segsOdd ≤ (crossfadePass 44100 2 segsOdd).length + fadeBound 44100 2 segsOdd := by
  decide

lemma chain'_of_no_word (segs : List Seg) (h : ∀ s ∈ segs, s.role ≠ Role.word) :
    List.Chain' (fun a b => a.role = Role.word → b.isPause = true) segs := by
  induction segs with
  | nil => exact List.chain'_nil
  | cons a l ih =>
    cases l with
    | nil => exact List.chain'_singleton a
    | cons b m =>
      rw [List.chain'_cons]
      exact ⟨fun hw => absurd hw (h a (by simp)),
        ih (fun s hs => h s (by simp [hs]))⟩

lemma noMidWord_of_no_word (segs : List Seg) (h : ∀ s ∈ segs, s.role ≠ Role.word) :
    NoMidWord segs := by
  refine ⟨chain'_of_no_word segs h, ?_⟩
  intro x hx
  exact h x (List.mem_of_mem_getLast? (Option.mem_def.mpr hx))

lemma noMidWord_append {xs ys : List Seg} (hx : NoMidWord xs) (hy : NoMidWord ys) :
    NoMidWord (xs ++ ys) := by
  constructor
  · rw [List.chain'_append]
    refine ⟨hx.1, hy.1, ?_⟩
    intro x hxl y _ hw
    exact absurd hw (hx.2 x hxl)
  · intro x h
    rw [List.getLast?_append] at h
    cases hys : ys.getLast? with
    | none =>
      rw [hys] at h
      have h2 : xs.getLast? = some x := h
      exact hx.2 x h2
    | some y =>
      rw [hys] at h
      have h2 : some y = some x := h
      cases h2
      exact hy.2 _ hys

lemma pauseFlag_append {xs ys : List Seg} (hx : PauseFlag xs) (hy : PauseFlag ys) :
    PauseFlag (xs ++ ys) := by
  intro s hs
  rcases List.mem_append.mp hs with h | h
  · exact hx s h
  · exact hy s h

lemma phonSegsCF_roles (env : Env) :
    ∀ ps segs, phonSegsCF env ps = Except.ok segs → ∀ s ∈ segs, s.role = Role.phoneme := by
  intro ps
  induction ps with
  | nil =>
    intro segs h s hs
    simp only [phonSegsCF] at h
    cases h
    simp at hs
  | cons p rest ih =>
    intro segs h s hs
    simp only [phonSegsCF] at h
    cases hg : getPhonemeData defaultTable env 1 2 44100 renderFuel p with
    | none =>
      rw [hg] at h
      exact absurd h (by simp)
    | some r =>
      rw [hg] at h
      cases r with
      | error e => exact absurd h (by simp)
      | ok o =>
        cases hr : phonSegsCF env rest with
        | error e =>
          rw [hr] at h
          exact absurd h (by simp)
        | ok segs' =>
          rw [hr] at h
          cases o with
          | some d =>
            have h2 : (Except.ok
                (if d = [] then segs'
                 else ⟨d, isVowelStr p, false, Role.phoneme⟩ :: segs') :
                Except Unit (List Seg)) = Except.ok segs := h
            cases h2
            by_cases hd : d = []
            · rw [if_pos hd] at hs
              exact ih _ hr s hs
            · rw [if_neg hd] at hs
              rcases List.mem_cons.mp hs with h1 | h1
              · rw [h1]
              · exact ih _ hr s h1
          | none =>
            have h2 : (Except.ok segs' : Except Unit (List Seg)) = Except.ok segs := h
            cases h2
            exact ih _ hr s hs

lemma blockCF_inv (env : Env) (tok : String) (b : List Seg)
    (h : blockCF env tok = Except.ok b) : NoMidWord b ∧ PauseFlag b := by
  unfold blockCF at h
  split at h
  · cases h
    refine ⟨⟨List.chain'_singleton _, ?_⟩, ?_⟩
    · intro x hx
      cases hx
      simp
    · intro s hs _
      rcases List.mem_singleton.mp hs with rfl
      rfl
  · split at h
    · cases h
      refine ⟨⟨?_, ?_⟩, ?_⟩
      · rw [List.chain'_cons]
        exact ⟨fun _ => rfl, List.chain'_singleton _⟩
      · intro x hx
        cases hx
        simp [wordPauseSeg]
      · intro s hs hrole
        rcases List.mem_cons.mp hs with rfl | hs
        · cases hrole
        · rcases List.mem_singleton.mp hs with rfl
          rfl
    · exact absurd h (by simp)
    · split at h
      · exact absurd h (by simp)
      · rename_i segs hsegs
        cases h
        have hroles := phonSegsCF_roles env _ _ hsegs
        have hnw : ∀ s ∈ segs ++ [wordPauseSeg], s.role ≠ Role.word := by
          intro s hs
          rcases List.mem_append.mp hs with h1 | h1
          · rw [hroles s h1]; simp
          · rcases List.mem_singleton.mp h1 with rfl
            simp [wordPauseSeg]
        refine ⟨noMidWord_of_no_word _ hnw, ?_⟩
        intro s hs hrole
        rcases List.mem_append.mp hs with h1 | h1
        · rw [hroles s h1] at hrole
          cases hrole
        · rcases List.mem_singleton.mp h1 with rfl
          rfl

lemma buildSegmentsCF_inv (env : Env) :
    ∀ toks segs, buildSegmentsCF env toks = Except.ok segs →
      NoMidWord segs ∧ PauseFlag segs := by
  intro toks
  induction toks with
  | nil =>
    intro segs h
    simp only [buildSegmentsCF] at h
    cases h
    exact ⟨⟨List.chain'_nil, by simp⟩, by simp [PauseFlag]⟩
  | cons t ts ih =>
    intro segs h
    simp only [buildSegmentsCF] at h
    split at h
    · exact absurd h (by simp)
    · exact absurd h (by simp)
    · rename_i b rest hb hrest
      cases h
      have h1 := blockCF_inv env t b hb
      have h2 := ih rest hrest
      exact ⟨noMidWord_append h1.1 h2.1, pauseFlag_append h1.2 h2.2⟩

/-- C1 (confirmed): in every segment list the crossfading renderer builds,
a boundary can crossfade only when segment `i` is a resolved phoneme
segment classified as a consonant (never a whole-word recording, never a
pause) and segment `i+1` exists, is not a pause, and is classified as a
vowel. -/
theorem crossfade_only_consonant_phoneme_to_vowel (env : Env) (toks : List String)
    (segs : List Seg) (hb : buildSegmentsCF env toks = Except.ok segs)
    (i : Nat) (h1 : i < segs.length) (h2 : i + 1 < segs.length)
    (hf : canFade (segs.get ⟨i, h1⟩) (segs.get ⟨i + 1, h2⟩) = true) :
    (segs.get ⟨i, h1⟩).role = Role.phoneme ∧
      (segs.get ⟨i, h1⟩).isVowel = false ∧ (segs.get ⟨i, h1⟩).isPause = false ∧
      (segs.get ⟨i + 1, h2⟩).isPause = false ∧ (segs.get ⟨i + 1, h2⟩).isVowel = true := by
  obtain ⟨⟨hchain, _⟩, hpause⟩ := buildSegmentsCF_inv env toks segs hb
  simp only [canFade, Bool.and_eq_true, Bool.not_eq_true'] at hf
  obtain ⟨⟨hv, hp⟩, hv2, hp2⟩ := hf
  have hadj := List.chain'_iff_get.mp hchain i (by omega)
  refine ⟨?_, hv, hp, hp2, hv2⟩
  cases hrole : (segs.get ⟨i, h1⟩).role with
  | word =>
    have := hadj hrole
    rw [hp2] at this
    cases this
  | phoneme => rfl
  | pause =>
    have := hpause _ (List.get_mem segs i h1) hrole
    rw [hp] at this
    cases this

/-- C1 witness: the renderer's segment list for the word `hi` against
`envHi` has an eligible `HH → IY` boundary at index 0, and the theorem's
conclusion evaluates there. -/
theorem crossfade_only_consonant_phoneme_to_vowel_witness :
    (segsHi.get ⟨0, by decide⟩).role = Role.phoneme ∧
      (segsHi.get ⟨0, by decide⟩).isVowel = false ∧
      (segsHi.get ⟨0, by decide⟩).isPause = false ∧
      (segsHi.get ⟨1, by decide⟩).isPause = false ∧
      (segsHi.get ⟨1, by decide⟩).isVowel = true :=
  crossfade_only_consonant_phoneme_to_vowel envHi ["hi"] segsHi (by decide)
    0 (by decide) (by decide) (by decide)

lemma blockMain_ne_nil (env : Env) (tok : String) (b : List (List Int))
    (h : blockMain env tok = Except.ok b) : b ≠ [] := by
  by_cases h1 : tok ∈ ([".", "!", "?"] : List String)
  · rw [blockMain, if_pos h1] at h
    cases h
    exact List.cons_ne_nil _ _
  · by_cases h2 : tok ∈ ([",", ";"] : List String)
    · rw [blockMain, if_neg h1, if_pos h2] at h
      cases h
      exact List.cons_ne_nil _ _
    · rw [blockMain, if_neg h1, if_neg h2] at h
      cases hw : env.word (strUpper tok) with
      | some ow =>
        cases ow with
        | some w =>
          rw [hw] at h
          cases h
          exact List.cons_ne_nil _ _
        | none =>
          rw [hw] at h
          exact absurd h (by simp)
      | none =>
        rw [hw] at h
        cases hc : blockMain.phonChunksMain env (cleanMain (env.g2p tok)) with
        | error e =>
          rw [hc] at h
          exact absurd h (by simp)
        | ok cs =>
          rw [hc] at h
          cases h
          intro hh
          rw [List.append_eq_nil] at hh
          exact List.cons_ne_nil _ _ hh.2

/-- C2 (amended): `render_to_file` of `src/main.py` takes the distinguished
"Nothing to render." early return (writing no file) exactly when the token
list is empty — punctuation tokens produce silence segments that count as
renderable, and any written buffer contains at least one segment; the
crossfading variant has no emptiness check at all and writes a zero-length
buffer for an empty token list. -/
theorem nothing_to_render_iff_no_tokens :
    (∀ (env : Env) (toks : List String),
      renderMain env toks = Except.ok none ↔ toks = []) ∧
    (∀ env : Env, renderCF env [] = Except.ok []) := by
  constructor
  · intro env toks
    constructor
    · intro h
      by_contra hne
      obtain ⟨t, ts, rfl⟩ := List.exists_cons_of_ne_nil hne
      simp only [renderMain, segsMain] at h
      cases hb : blockMain env t with
      | error e => rw [hb] at h; exact absurd h (by simp)
      | ok b =>
        rw [hb] at h
        cases hrest : segsMain env ts with
        | error e => rw [hrest] at h; exact absurd h (by simp)
        | ok rest =>
          rw [hrest] at h
          have hbne := blockMain_ne_nil env t b hb
          have hie : (b ++ rest).isEmpty = false := by
            cases b with
            | nil => exact absurd rfl hbne
            | cons x xs => simp
          simp only [hie] at h
          simp at h
    · rintro rfl
      rfl
  · intro env
    rfl

/-- C2 witness: the theorem's iff applied at the empty token list yields
the "nothing to render" outcome. -/
theorem nothing_to_render_iff_no_tokens_witness :
    renderMain envEmpty [] = Except.ok none :=
  (nothing_to_render_iff_no_tokens.1 envEmpty []).mpr rfl

/-- C2 counterexample: the text `.` contains only punctuation (its token
list is `["."]`, which produces no speech audio), yet `render_to_file` of
`src/main.py` does not return the "nothing to render" outcome — it writes a
file of 22050 frames (44100 bytes) of pure silence. -/
theorem punctuation_only_writes_silence :
    tokenize "." = ["."] ∧
    renderMain envEmpty (tokenize ".") = Except.ok (some (List.replicate 44100 0)) ∧
    renderMain envEmpty (tokenize ".") ≠ Except.ok none := by
  have h1 : tokenize "." = ["."] := by decide
  have h2 : renderMain envEmpty ["."] = Except.ok (some (List.replicate 44100 0)) := by
    have hb : blockMain envEmpty "." = Except.ok [List.replicate 44100 0] := by
      unfold blockMain
      rw [if_pos (by decide : ("." : String) ∈ ([".", "!", "?"] : List String))]
    have hs : segsMain envEmpty ["."] = Except.ok [List.replicate 44100 0] := by
      simp only [segsMain, hb]
      rw [List.append_nil]
    simp only [renderMain, hs]
    simp only [List.isEmpty_cons, List.flatten_cons, List.flatten_nil, List.append_nil]
    rfl
  refine ⟨h1, by rw [h1]; exact h2, ?_⟩
  rw [h1, h2]
  intro h
  exact Option.noConfusion (Except.ok.inj h)

/-- C3 counterexample: a resolved whole-word clip whose container fails to
parse makes the whole crossfading `render_to_file` call raise (the
exception escapes the render), instead of skipping the segment. -/
theorem corrupt_clip_fails_render :
    renderCF envCorrupt ["hi"] = Except.error () := by
  decide

lemma getPhonemeData_corrupt_step (table : PhTable) (env : Env) (tch tw tr f : Nat)
    (p : String) (hp : p ≠ "AH0") (hw : env.phon p = some none) :
    getPhonemeData table env tch tw tr (f + 1) p = some (Except.error ()) := by
  conv_lhs => rw [getPhonemeData]
  rw [if_neg hp, hw]

lemma buildSegmentsCF_append_error (env : Env) (toks : List String)
    (htoks : buildSegmentsCF env toks = Except.error ()) :
    ∀ (pre : List String) (b : List Seg), buildSegmentsCF env pre = Except.ok b →
      buildSegmentsCF env (pre ++ toks) = Except.error () := by
  intro pre
  induction pre with
  | nil =>
    intro b _
    simpa using htoks
  | cons t ts ih =>
    intro b hpre
    rw [List.cons_append]
    simp only [buildSegmentsCF] at hpre ⊢
    cases hb : blockCF env t with
    | error e =>
      rw [hb] at hpre
    | ok bb =>
      rw [hb] at hpre
      cases hrest : buildSegmentsCF env ts with
      | error e =>
        rw [hrest] at hpre
        exact absurd hpre (by simp)
      | ok rr =>
        rw [ih rr hrest]

lemma segsMain_append_error (env : Env) (toks : List String)
    (htoks : segsMain env toks = Except.error ()) :
    ∀ (pre : List String) (b : List (List Int)), segsMain env pre = Except.ok b →
      segsMain env (pre ++ toks) = Except.error () := by
  intro pre
  induction pre with
  | nil =>
    intro b _
    simpa using htoks
  | cons t ts ih =>
    intro b hpre
    rw [List.cons_append]
    simp only [segsMain] at hpre ⊢
    cases hb : blockMain env t with
    | error e =>
      rw [hb] at hpre
    | ok bb =>
      rw [hb] at hpre
      cases hrest : segsMain env ts with
      | error e =>
        rw [hrest] at hpre
        exact absurd hpre (by simp)
      | ok rr =>
        rw [ih rr hrest]

/-- C3 (amended): during live playback (`_play_sequence`) a clip whose
container fails to parse is skipped — the stream receives exactly the
normalized audio of the parseable clips, in order, and each corrupt clip is
surfaced as one printed diagnostic; but during `render_to_file` of either
source a parse failure on a resolved clip — a whole-word recording or a
phoneme recording, at any token position the render reaches — propagates
out of the render call as an exception. -/
theorem corrupt_clip_playback_skips_render_raises :
    (∀ items : List PlayItem,
      (playSequence items).1 = items.filterMap (fun it =>
        match it with
        | PlayItem.file (some w) => some (normalizeCF w 1 2 44100)
        | _ => none) ∧
      (playSequence items).2 = (items.filter (fun it =>
        match it with
        | PlayItem.file none => true
        | _ => false)).length) ∧
    (∀ (env : Env) (s : String) (toks : List String),
      s ∉ ([".", "!", "?", ",", ";"] : List String) →
      env.word (strUpper s) = some none →
      renderCF env (s :: toks) = Except.error () ∧
      renderMain env (s :: toks) = Except.error ()) ∧
    (∀ (env : Env) (s : String) (toks : List String) (p : String) (ps : List String),
      s ∉ ([".", "!", "?", ",", ";"] : List String) →
      env.word (strUpper s) = none →
      applyLastSub (cleanCF (env.g2p s)) = p :: ps → p ≠ "AH0" →
      env.phon p = some none →
      renderCF env (s :: toks) = Except.error ()) ∧
    (∀ (env : Env) (s : String) (toks : List String) (p : String) (ps : List String),
      s ∉ ([".", "!", "?", ",", ";"] : List String) →
      env.word (strUpper s) = none →
      cleanMain (env.g2p s) = p :: ps →
      env.phon p = some none →
      renderMain env (s :: toks) = Except.error ()) ∧
    (∀ (env : Env) (pre toks : List String) (b : List Seg),
      buildSegmentsCF env pre = Except.ok b →
      renderCF env toks = Except.error () →
      renderCF env (pre ++ toks) = Except.error ()) ∧
    (∀ (env : Env) (pre toks : List String) (b : List (List Int)),
      segsMain env pre = Except.ok b →
      renderMain env toks = Except.error () →
      renderMain env (pre ++ toks) = Except.error ()) := by
  refine ⟨?_, ?_, ?_, ?_, ?_, ?_⟩
  · intro items
    induction items with
    | nil => exact ⟨rfl, rfl⟩
    | cons it rest ih =>
      cases it with
      | silence => simpa [playSequence] using ih
      | file w =>
        cases w with
        | none => simp [playSequence, ih.1, ih.2]
        | some wav => simp [playSequence, ih.1, ih.2]
  · intro env s toks hs hw
    have h3 : s ∉ ([".", "!", "?"] : List String) := by
      intro h
      apply hs
      simp only [List.mem_cons, List.mem_singleton, List.not_mem_nil, or_false] at h ⊢
      tauto
    have h2 : s ∉ ([",", ";"] : List String) := by
      intro h
      apply hs
      simp only [List.mem_cons, List.mem_singleton, List.not_mem_nil, or_false] at h ⊢
      tauto
    constructor
    · have hblock : blockCF env s = Except.error () := by
        unfold blockCF
        rw [if_neg (by simpa using hs), hw]
      simp only [renderCF, buildSegmentsCF]
      rw [hblock]
      rfl
    · have hblock : blockMain env s = Except.error () := by
        rw [blockMain, if_neg h3, if_neg h2, hw]
      simp only [renderMain, segsMain]
      rw [hblock]
  · intro env s toks p ps hs hword hls hp hphon
    have hgp : getPhonemeData defaultTable env 1 2 44100 renderFuel p =
        some (Except.error ()) :=
      getPhonemeData_corrupt_step defaultTable env 1 2 44100 9 p hp hphon
    have hpsg : phonSegsCF env (p :: ps) = Except.error () := by
      simp only [phonSegsCF]
      rw [hgp]
    have hblock : blockCF env s = Except.error () := by
      unfold blockCF
      rw [if_neg (by simpa using hs), hword, hls, hpsg]
    simp only [renderCF, buildSegmentsCF]
    rw [hblock]
    rfl
  · intro env s toks p ps hs hword hclean hphon
    have h3 : s ∉ ([".", "!", "?"] : List String) := by
      intro h
      apply hs
      simp only [List.mem_cons, List.mem_singleton, List.not_mem_nil, or_false] at h ⊢
      tauto
    have h2 : s ∉ ([",", ";"] : List String) := by
      intro h
      apply hs
      simp only [List.mem_cons, List.mem_singleton, List.not_mem_nil, or_false] at h ⊢
      tauto
    have hpc : blockMain.phonChunksMain env (p :: ps) = Except.error () := by
      simp only [blockMain.phonChunksMain]
      rw [hphon]
    have hblock : blockMain env s = Except.error () := by
      rw [blockMain, if_neg h3, if_neg h2, hword, hclean, hpc]
    simp only [renderMain, segsMain]
    rw [hblock]
  · intro env pre toks b hpre hr
    cases hbt : buildSegmentsCF env toks with
    | ok segs =>
      rw [renderCF, hbt] at hr
      exact absurd hr (by simp [Except.map])
    | error e =>
      cases e
      rw [renderCF, buildSegmentsCF_append_error env toks hbt pre b hpre]
      rfl
  · intro env pre toks b hpre hr
    cases hbt : segsMain env toks with
    | ok segs =>
      rw [renderMain] at hr
      rw [hbt] at hr
      exact absurd hr (by simp)
    | error e =>
      cases e
      rw [renderMain]
      rw [segsMain_append_error env toks hbt pre b hpre]

/-- C3 witness: the playback part evaluated on a list holding a silence, a
corrupt clip and a good clip; the render parts on texts whose corrupt
resolved clip is a whole-word recording (`envCorrupt`, both renderers, also
behind a successfully rendered prefix token) or a phoneme recording
(`envPhonCorrupt`, both renderers). -/
theorem corrupt_clip_playback_skips_render_raises_witness :
    (playSequence [PlayItem.silence, PlayItem.file none, PlayItem.file (some wav0)]).1 =
        [normalizeCF wav0 1 2 44100] ∧
      renderCF envCorrupt ["hi", "yes"] = Except.error () ∧
      renderMain envCorrupt ["hi", "yes"] = Except.error () ∧
      renderCF envPhonCorrupt ["hi"] = Except.error () ∧
      renderMain envPhonCorrupt ["hi"] = Except.error () ∧
      renderCF envCorrupt (["ok"] ++ ["hi"]) = Except.error () ∧
      renderMain envCorrupt (["ok"] ++ ["hi"]) = Except.error () := by
  have hword := corrupt_clip_playback_skips_render_raises.2.1 envCorrupt "hi" ["yes"]
    (by decide) (by decide)
  have hword1 := corrupt_clip_playback_skips_render_raises.2.1 envCorrupt "hi" []
    (by decide) (by decide)
  refine ⟨(corrupt_clip_playback_skips_render_raises.1
      [PlayItem.silence, PlayItem.file none, PlayItem.file (some wav0)]).1,
    hword.1, hword.2, ?_, ?_, ?_, ?_⟩
  · exact corrupt_clip_playback_skips_render_raises.2.2.1 envPhonCorrupt "hi" []
      "HH" ["IY"] (by decide) (by decide) (by decide) (by decide) (by decide)
  · exact corrupt_clip_playback_skips_render_raises.2.2.2.1 envPhonCorrupt "hi" []
      "HH" ["IY"] (by decide) (by decide) (by decide) (by decide)
  · exact corrupt_clip_playback_skips_render_raises.2.2.2.2.1 envCorrupt ["ok"] ["hi"]
      [⟨List.replicate 882 0, false, true, Role.pause⟩] (by decide) hword1.1
  · exact corrupt_clip_playback_skips_render_raises.2.2.2.2.2 envCorrupt ["ok"] ["hi"]
      [List.replicate 882 0] (by decide) hword1.2

lemma getPhonemeData_table_step (table : PhTable) (env : Env) (tch tw tr f : Nat)
    (ph : String) (hph : ph ≠ "AH0") (hphon : env.phon ph = none)
    (subs : List String) (htab : table ph = some subs) :
    getPhonemeData table env tch tw tr (f + 1) ph =
      match subs.foldr
          (fun s acc => combineStep (getPhonemeData table env tch tw tr f s) acc)
          (some (Except.ok [])) with
      | none => none
      | some (Except.error e) => some (Except.error e)
      | some (Except.ok comb) =>
        some (Except.ok (if comb = [] then none else some comb)) := by
  conv_lhs => rw [getPhonemeData]
  rw [if_neg hph, hphon, htab]

/-- C4: the code has no visited-label set and no recursion bound — with the
author-edited cyclic table `X → [Y]`, `Y → [X]` and an empty voice bank,
`_get_phoneme_data("X")` never returns at any recursion depth (in Python it
recurses until `RecursionError`), rather than failing closed with `None`. -/
theorem cyclic_table_resolution_diverges :
    ∀ fuel : Nat, getPhonemeData cycTable envEmpty 1 2 44100 fuel "X" = none := by
  have key : ∀ fuel : Nat,
      getPhonemeData cycTable envEmpty 1 2 44100 fuel "X" = none ∧
      getPhonemeData cycTable envEmpty 1 2 44100 fuel "Y" = none := by
    intro fuel
    induction fuel with
    | zero => exact ⟨rfl, rfl⟩
    | succ f ih =>
      constructor
      · rw [getPhonemeData_table_step cycTable envEmpty 1 2 44100 f "X"
          (by decide) rfl ["Y"] rfl]
        rw [List.foldr_cons, List.foldr_nil, ih.2]
        rfl
      · rw [getPhonemeData_table_step cycTable envEmpty 1 2 44100 f "Y"
          (by decide) rfl ["X"] rfl]
        rw [List.foldr_cons, List.foldr_nil, ih.1]
        rfl
  exact fun fuel => (key fuel).1

lemma foldr_combine_ok (table : PhTable) (env : Env) (tch tw tr f : Nat)
    (subs : List String)
    (h : ∀ s ∈ subs, ∃ o, getPhonemeData table env tch tw tr f s = some (Except.ok o)) :
    subs.foldr (fun s acc => combineStep (getPhonemeData table env tch tw tr f s) acc)
      (some (Except.ok [])) =
    some (Except.ok
      ((subs.map (fun s => subAudio (getPhonemeData table env tch tw tr f s))).flatten)) := by
  induction subs with
  | nil => simp
  | cons s rest ih =>
    obtain ⟨o, ho⟩ := h s (by simp)
    rw [List.foldr_cons, ih (fun x hx => h x (by simp [hx]))]
    rw [List.map_cons, List.flatten_cons, ho]
    cases o with
    | none => simp [combineStep, subAudio, ho]
    | some d => simp [combineStep, subAudio, ho]

/-- C6 (amended): when a label has no recording but has a fallback entry,
resolution recursively resolves each substitute in the table's listed order
and returns the concatenation of the audio of the substitutes that resolved
to non-`None` data; it returns `None` iff that concatenation is empty —
which happens when every substitute fails to resolve, but also when the
successful substitutes all resolve to zero-length audio.  The default table
has exactly the thirteen listed entries. -/
theorem fallback_concatenation (tch tw tr : Nat) :
    (defaultTable "AW" = some ["AE", "OW"] ∧ defaultTable "DH" = some ["D"] ∧
      defaultTable "EY" = some ["EH", "IY"] ∧ defaultTable "JH" = some ["CH"] ∧
      defaultTable "SH" = some ["CH"] ∧ defaultTable "TH" = some ["D"] ∧
      defaultTable "ZH" = some ["CH"] ∧ defaultTable "AE" = some ["AA"] ∧
      defaultTable "AO" = some ["AA", "OW"] ∧ defaultTable "ER" = some ["AA"] ∧
      defaultTable "IH" = some ["IY"] ∧ defaultTable "OY" = some ["OW", "Y", "IY"] ∧
      defaultTable "UH" = some ["UW"]) ∧
    (∀ l : String, l ∉ (["AW", "DH", "EY", "JH", "SH", "TH", "ZH", "AE", "AO",
        "ER", "IH", "OY", "UH"] : List String) → defaultTable l = none) ∧
    (∀ (env : Env) (f : Nat) (label : String) (subs : List String),
      label ≠ "AH0" → env.phon label = none → defaultTable label = some subs →
      (∀ s ∈ subs, ∃ o,
        getPhonemeData defaultTable env tch tw tr f s = some (Except.ok o)) →
      getPhonemeData defaultTable env tch tw tr (f + 1) label =
        some (Except.ok
          (if ((subs.map (fun s =>
                subAudio (getPhonemeData defaultTable env tch tw tr f s))).flatten) = []
           then none
           else some ((subs.map (fun s =>
                subAudio (getPhonemeData defaultTable env tch tw tr f s))).flatten)))) := by
  refine ⟨by decide, ?_, ?_⟩
  · intro l hl
    simp only [defaultTable]
    rw [if_neg (fun h => hl (by rw [h]; decide)), if_neg (fun h => hl (by rw [h]; decide)),
      if_neg (fun h => hl (by rw [h]; decide)), if_neg (fun h => hl (by rw [h]; decide)),
      if_neg (fun h => hl (by rw [h]; decide)), if_neg (fun h => hl (by rw [h]; decide)),
      if_neg (fun h => hl (by rw [h]; decide)), if_neg (fun h => hl (by rw [h]; decide)),
      if_neg (fun h => hl (by rw [h]; decide)), if_neg (fun h => hl (by rw [h]; decide)),
      if_neg (fun h => hl (by rw [h]; decide)), if_neg (fun h => hl (by rw [h]; decide)),
      if_neg (fun h => hl (by rw [h]; decide))]
  · intro env f label subs hlab hphon htab hsubs
    rw [getPhonemeData_table_step defaultTable env tch tw tr f label hlab hphon subs htab]
    rw [foldr_combine_ok defaultTable env tch tw tr f subs hsubs]

/-- C6 witness: resolving `DH` (no recording, fallback `[D]`) against a
voice bank holding a one-frame `D.wav` concatenates the substitute's audio. -/
theorem fallback_concatenation_witness :
    getPhonemeData defaultTable envD 1 2 44100 2 "DH" =
      some (Except.ok
        (if ((["D"].map (fun s =>
              subAudio (getPhonemeData defaultTable envD 1 2 44100 1 s))).flatten) = []
         then none
         else some ((["D"].map (fun s =>
              subAudio (getPhonemeData defaultTable envD 1 2 44100 1 s))).flatten))) :=
  (fallback_concatenation 1 2 44100).2.2 envD 1 "DH" ["D"] (by decide) (by decide)
    (by decide)
    (by
      intro s hs
      rcases List.mem_singleton.mp hs with rfl
      exact ⟨some [0, 0], by decide⟩)

/-- C6 counterexample: with a voice bank whose `D.wav` parses to zero-length
audio, the substitute `D` of `DH` resolves successfully (to empty bytes),
yet `_get_phoneme_data("DH")` still returns `None` — so "returns none iff
every substitute itself fails to resolve" is false as stated. -/
theorem fallback_none_despite_resolved_substitute :
    defaultTable "DH" = some ["D"] ∧
    getPhonemeData defaultTable envEmptyD 1 2 44100 1 "D" = some (Except.ok (some [])) ∧
    getPhonemeData defaultTable envEmptyD 1 2 44100 2 "DH" = some (Except.ok none) := by
  decide

lemma isDigit_false_of_upper (c : Char) (h : 'A' ≤ c) : c.isDigit = false := by
  have h9 : ¬ (c ≤ '9') := fun h9 => absurd (le_trans h h9) (by decide)
  simp [Char.isDigit, decide_eq_false h9]
  exact fun _ => lt_of_not_le h9

lemma getPhonemeData_ah0_step (table : PhTable) (env : Env) (tch tw tr f : Nat) :
    getPhonemeData table env tch tw tr (f + 1) "AH0" =
      match getPhonemeData table env tch tw tr f "EH" with
      | some (Except.ok (some d)) =>
        some (Except.ok (some
          (if 2 * (tw * tch) < d.length then
            (d.drop (tw * tch)).take (d.length - 2 * (tw * tch))
          else d)))
      | r => r := by
  conv_lhs => rw [getPhonemeData]
  rw [if_pos rfl]

/-- C7 (confirmed): during the crossfading renderer's label cleaning, a kept
label of the ARPAbet shape "uppercase letters followed by optional stress
digits" loses exactly its trailing digits — except the literal `AH0`, which
is preserved and is distinct from plain `AH`; and resolving `AH0`
recursively resolves `EH` and trims one frame-width from both ends of that
recording exactly when the recording is longer than twice the frame width,
keeping it untrimmed otherwise. -/
theorem cleaning_preserves_ah0_and_trims :
    (∀ ls ds : List Char, ls ≠ [] →
      (∀ c ∈ ls, 'A' ≤ c ∧ c ≤ 'Z') → (∀ c ∈ ds, c.isDigit = true) →
      String.mk (ls ++ ds) ≠ "AH0" →
      cleanCF [String.mk (ls ++ ds)] = [String.mk ls]) ∧
    (cleanCF ["AH0"] = ["AH0"] ∧ ("AH0" : String) ≠ "AH") ∧
    (∀ (table : PhTable) (env : Env) (tch tw tr f : Nat) (d : List Int),
      getPhonemeData table env tch tw tr f "EH" = some (Except.ok (some d)) →
      (2 * (tw * tch) < d.length →
        getPhonemeData table env tch tw tr (f + 1) "AH0" =
          some (Except.ok (some
            ((d.drop (tw * tch)).take (d.length - 2 * (tw * tch)))))) ∧
      (¬ 2 * (tw * tch) < d.length →
        getPhonemeData table env tch tw tr (f + 1) "AH0" =
          some (Except.ok (some d)))) := by
  refine ⟨?_, ⟨by decide, by decide⟩, ?_⟩
  · intro ls ds hne hup hdig hnA
    have hdata : (String.mk (ls ++ ds)).data = ls ++ ds := rfl
    have hstrip : stripDigits (String.mk (ls ++ ds)) = String.mk ls := by
      simp only [stripDigits, hdata, List.filter_append]
      rw [List.filter_eq_self.mpr ?h1, List.filter_eq_nil_iff.mpr ?h2, List.append_nil]
      case h1 =>
        intro c hc
        rw [isDigit_false_of_upper c (hup c hc).1]
        rfl
      case h2 =>
        intro c hc
        rw [hdig c hc]
        simp
    have hkeep : startsUpper (String.mk ls) = true := by
      cases ls with
      | nil => exact absurd rfl hne
      | cons c cs =>
        simp only [startsUpper]
        exact decide_eq_true (hup c (by simp))
    simp only [cleanCF, List.map_cons, List.map_nil]
    rw [if_neg hnA, hstrip]
    rw [List.filter_cons, hkeep]
    rfl
  · intro table env tch tw tr f d hEH
    rw [getPhonemeData_ah0_step, hEH]
    constructor
    · intro hlt
      simp [hlt]
    · intro hnlt
      simp [hnlt]

/-- C7 witness: cleaning `IY1` strips the stress digit, and `AH0` resolution
against a three-frame `EH.wav` (mono, 16-bit, 44100 Hz) trims one frame from
each end. -/
theorem cleaning_preserves_ah0_and_trims_witness :
    cleanCF [String.mk (['I', 'Y'] ++ ['1'])] = [String.mk ['I', 'Y']] ∧
    getPhonemeData defaultTable envEH 1 2 44100 2 "AH0" =
      some (Except.ok (some [3, 4])) := by
  have h := (cleaning_preserves_ah0_and_trims.2.2 defaultTable envEH 1 2 44100 1
    [1, 2, 3, 4, 5, 6] (by decide)).1 (by decide)
  exact ⟨cleaning_preserves_ah0_and_trims.1 ['I', 'Y'] ['1'] (by decide) (by decide)
    (by decide) (by decide), by rw [h]; decide⟩

/-- C8 (confirmed): the crossfading renderer's phoneme path resolves exactly
`applyLastSub` of the cleaned G2P labels, and `applyLastSub` replaces the
final label by `AA` iff that label is `AH`, `AE` or `AH0`, leaves any other
final label (e.g. `OW`) unchanged, and never touches a non-final label. -/
theorem last_phoneme_substitution :
    (∀ (env : Env) (s : String),
      s ∉ ([".", "!", "?", ",", ";"] : List String) →
      env.word (strUpper s) = none →
      blockCF env s =
        match phonSegsCF env (applyLastSub (cleanCF (env.g2p s))) with
        | Except.error e => Except.error e
        | Except.ok segs => Except.ok (segs ++ [wordPauseSeg])) ∧
    (∀ (ps : List String) (l : String), ps.getLast? = some l →
      ((l ∈ (["AH", "AE", "AH0"] : List String) →
          applyLastSub ps = ps.dropLast ++ ["AA"]) ∧
       (l ∉ (["AH", "AE", "AH0"] : List String) → applyLastSub ps = ps) ∧
       (∀ i, i + 1 < ps.length → (applyLastSub ps).getD i "" = ps.getD i ""))) := by
  constructor
  · intro env s hs hw
    unfold blockCF
    rw [if_neg (by simpa using hs), hw]
  · intro ps l hl
    have hsub : applyLastSub ps =
        if l ∈ (["AH", "AE", "AH0"] : List String) then ps.dropLast ++ ["AA"] else ps := by
      unfold applyLastSub
      rw [hl]
    by_cases hm : l ∈ (["AH", "AE", "AH0"] : List String)
    · rw [hsub, if_pos hm]
      refine ⟨fun _ => rfl, fun hn => absurd hm hn, ?_⟩
      intro i hi
      have h1 : i < ps.dropLast.length := by rw [List.length_dropLast]; omega
      rw [List.getD_append _ _ _ _ h1]
      rw [List.getD_eq_getElem?_getD, List.getD_eq_getElem?_getD]
      rw [List.getElem?_dropLast]
      rw [if_pos (by omega)]
    · rw [hsub, if_neg hm]
      exact ⟨fun hmm => absurd hmm hm, fun _ => rfl, fun _ _ => rfl⟩

/-- C8 witness: for the G2P output `HH AH0 L OW` the final `OW` is
untouched, while a final `AH` becomes `AA`; the non-final labels are
unchanged in both cases. -/
theorem last_phoneme_substitution_witness :
    applyLastSub ["HH", "AH0", "L", "OW"] = ["HH", "AH0", "L", "OW"] ∧
    applyLastSub ["HH", "AH"] = ["HH", "AH"].dropLast ++ ["AA"] ∧
    (applyLastSub ["HH", "AH"]).getD 0 "" = (["HH", "AH"] : List String).getD 0 "" :=
  ⟨((last_phoneme_substitution.2 ["HH", "AH0", "L", "OW"] "OW" rfl).2.1 (by decide)),
   ((last_phoneme_substitution.2 ["HH", "AH"] "AH" rfl).1 (by decide)),
   ((last_phoneme_substitution.2 ["HH", "AH"] "AH" rfl).2.2 0 (by decide))⟩

/-- C9 (amended): `_normalize_wav` of `src/main.py` is a bit-for-bit no-op
under an identity target for every source channel count, and both variants
are no-ops on audio already in the target format (mono, 16-bit, 44100 Hz);
but the crossfading variant's identity-target normalization is a no-op only
for sources of at most one channel — it downmixes any multi-channel source
even when the target channel count equals the source's. -/
theorem normalize_identity_and_idempotent :
    (∀ wav : Wav, normalizeMain wav wav.channels wav.width wav.rate = wav.data) ∧
    (∀ wav : Wav, wav.channels ≤ 1 →
      normalizeCF wav wav.channels wav.width wav.rate = wav.data) ∧
    (∀ wav : Wav, wav.channels = 1 → wav.width = 2 → wav.rate = 44100 →
      normalizeMain wav 1 2 44100 = wav.data ∧ normalizeCF wav 1 2 44100 = wav.data) := by
  refine ⟨?_, ?_, ?_⟩
  · intro wav
    simp only [normalizeMain]
    rw [if_neg (show ¬(wav.channels > 1 ∧ wav.channels = 1) by omega),
      if_neg (show ¬(wav.width ≠ wav.width) from fun h => h rfl),
      if_neg (show ¬(wav.rate ≠ wav.rate) from fun h => h rfl)]
  · intro wav h
    simp only [normalizeCF]
    rw [if_neg (show ¬(wav.channels > 1) by omega),
      if_neg (show ¬(wav.width ≠ wav.width) from fun h => h rfl),
      if_neg (show ¬(wav.rate ≠ wav.rate) from fun h => h rfl)]
  · intro wav h1 h2 h3
    constructor
    · simp only [normalizeMain]
      rw [if_neg (show ¬(wav.channels > 1 ∧ True) from fun hc => absurd hc.1 (by omega)),
        if_neg (show ¬(wav.width ≠ 2) by omega),
        if_neg (show ¬(wav.rate ≠ 44100) by omega)]
    · simp only [normalizeCF]
      rw [if_neg (show ¬(wav.channels > 1) by omega),
        if_neg (show ¬(wav.width ≠ 2) by omega),
        if_neg (show ¬(wav.rate ≠ 44100) by omega)]

/-- C9 witness: the identity theorems evaluated on the one-frame
target-format clip. -/
theorem normalize_identity_and_idempotent_witness :
    normalizeMain wav0 wav0.channels wav0.width wav0.rate = wav0.data ∧
    normalizeCF wav0 1 2 44100 = wav0.data :=
  ⟨normalize_identity_and_idempotent.1 wav0,
   (normalize_identity_and_idempotent.2.2 wav0 rfl rfl rfl).2⟩

/-- C9 counterexample: the crossfading `_normalize_wav` with an identity
target (2 channels, 1 byte, 8000 Hz — same as the source) still downmixes
the one-frame stereo clip to a single mono byte (output length 1 against
input length 2), so identity-target normalization is not bit-for-bit for
every source channel count. -/
theorem normalize_identity_fails_for_stereo :
    (normalizeCF wavStereo wavStereo.channels wavStereo.width wavStereo.rate).length = 1 ∧
    wavStereo.data.length = 2 ∧
    normalizeCF wavStereo wavStereo.channels wavStereo.width wavStereo.rate ≠
      wavStereo.data := by
  have h1 : (normalizeCF wavStereo wavStereo.channels wavStereo.width
      wavStereo.rate).length = 1 := by decide
  have h2 : wavStereo.data.length = 2 := by decide
  refine ⟨h1, h2, fun h => ?_⟩
  have hlen := congrArg List.length h
  rw [h1, h2] at hlen
  cases hlen

lemma gpd_eh_eval (env : Env) (tch tw tr f : Nat) :
    getPhonemeData defaultTable env tch tw tr (f + 1) "EH" =
      match env.phon "EH" with
      | some (some w) => some (Except.ok (some (normalizeCF w tch tw tr)))
      | some none => some (Except.error ())
      | none => some (Except.ok none) := by
  conv_lhs => rw [getPhonemeData]
  rw [if_neg (by decide)]
  cases hp : env.phon "EH" with
  | some ow => cases ow <;> rfl
  | none => rfl

lemma gpd_eh_congr (env env' : Env) (tch tw tr : Nat)
    (h : env.phon "EH" = env'.phon "EH") :
    ∀ f, getPhonemeData defaultTable env tch tw tr f "EH" =
      getPhonemeData defaultTable env' tch tw tr f "EH" := by
  intro f
  cases f with
  | zero => rfl
  | succ f =>
    rw [gpd_eh_eval, gpd_eh_eval, h]

/-- C10 (confirmed): neither `AH0` nor `EH` has a fallback entry, resolution
of `AH0` depends only on the voice bank's answer for `EH` (even an `AH0.wav`
recording is never consulted), it returns `None` whenever no `EH` recording
exists, and it returns the (possibly trimmed) normalized `EH` clip when one
exists and parses. -/
theorem ah0_depends_only_on_eh (tch tw tr : Nat) :
    (defaultTable "EH" = none ∧ defaultTable "AH0" = none) ∧
    (∀ (env env' : Env) (f : Nat), env.phon "EH" = env'.phon "EH" →
      getPhonemeData defaultTable env tch tw tr f "AH0" =
        getPhonemeData defaultTable env' tch tw tr f "AH0") ∧
    (∀ (env : Env) (f : Nat), env.phon "EH" = none →
      getPhonemeData defaultTable env tch tw tr (f + 2) "AH0" = some (Except.ok none)) ∧
    (∀ (env : Env) (f : Nat) (w : Wav), env.phon "EH" = some (some w) →
      getPhonemeData defaultTable env tch tw tr (f + 2) "AH0" =
        some (Except.ok (some
          (if 2 * (tw * tch) < (normalizeCF w tch tw tr).length then
            ((normalizeCF w tch tw tr).drop (tw * tch)).take
              ((normalizeCF w tch tw tr).length - 2 * (tw * tch))
           else normalizeCF w tch tw tr)))) := by
  refine ⟨⟨by decide, by decide⟩, ?_, ?_, ?_⟩
  · intro env env' f h
    cases f with
    | zero => rfl
    | succ f =>
      rw [getPhonemeData_ah0_step, getPhonemeData_ah0_step,
        gpd_eh_congr env env' tch tw tr h f]
  · intro env f hphon
    rw [getPhonemeData_ah0_step, gpd_eh_eval, hphon]
  · intro env f w hphon
    rw [getPhonemeData_ah0_step, gpd_eh_eval, hphon]

/-- C10 witness: adding a (never consulted) `AH0.wav` to the voice bank does
not change `AH0` resolution; with no `EH` recording `AH0` resolves to
`None`; with a three-frame `EH.wav` it resolves to the trimmed clip. -/
theorem ah0_depends_only_on_eh_witness :
    getPhonemeData defaultTable envEH 1 2 44100 2 "AH0" =
      getPhonemeData defaultTable envEHandAH0 1 2 44100 2 "AH0" ∧
    getPhonemeData defaultTable envEmpty 1 2 44100 2 "AH0" = some (Except.ok none) ∧
    getPhonemeData defaultTable envEH 1 2 44100 2 "AH0" =
      some (Except.ok (some [3, 4])) := by
  have h3 := (ah0_depends_only_on_eh 1 2 44100).2.2.2 envEH 0
    ⟨1, 2, 44100, [1, 2, 3, 4, 5, 6]⟩ rfl
  refine ⟨(ah0_depends_only_on_eh 1 2 44100).2.1 envEH envEHandAH0 2 rfl, ?_, ?_⟩
  · exact (ah0_depends_only_on_eh 1 2 44100).2.2.1 envEmpty 0 rfl
  · rw [h3]
    decide

end SMG
